import Mathlib

/-!
Verification development for the sci-paper-rag repository.

The definitions below are shallow embeddings of the repository's code:

* `match_pdf_chunks` and `match_user_pdf_chunks` embed the PL/pgSQL vector
  search functions of `supabase-schema.sql` (lines 32-62) and
  `supabase-schema-multi-tenant.sql` (lines 187-221).  A stored table is a
  list of rows in insertion order; the pgvector cosine-distance operator
  `<=>` is an abstract parameter `dist`; `LIMIT` is `List.take`.  The SQL
  `ORDER BY` has no secondary sort key and PostgreSQL fixes no order among
  rows with equal keys, so its admissible executions are characterised by
  the relation `validOrderBy` (any key-sorted permutation); the executable
  functions realise one admissible execution with a deterministic sort.
* `generateEmbeddings` embeds `PythonPDFProcessor.generateEmbeddings`
  (`components/sections/RagAIAssistantHero.tsx`, lines 402-444).
* `addMessage`, `loadThread`, `clearThread`, `getThreadForAPI` embed
  `ChatThreadManager` (`ImportedPipeLineFiles/FrontendComponents/rag-admin.ts`,
  lines 1660-1740); the persisted `localStorage` value is modelled as an
  optional parsed JSON value (`JsValue`).
* `buildMessagesWithContext` embeds the function of the same name in
  `ImportedPipeLineFiles/Backend API files/rag-chat.js` (lines 70-88).
* `relayRun` embeds the stream `data`/`end`/`error` handlers of the chat
  handler in the same file (lines 131-155).
* `uploadAndProcess` embeds the `processing_status` writes performed by
  `api/upload-pdf.js` (lines 224-243) and
  `PythonPDFProcessor.processUserPDF` (lines 197-272).
-/

namespace SciPaperRag

/-- JavaScript `arr.slice(-n)` for a positive `n`: the last `n` elements of
the list (the whole list when it is shorter than `n`). -/
def takeLast {α : Type} (n : Nat) (l : List α) : List α :=
  l.drop (l.length - n)

theorem takeLast_length_le {α : Type} (n : Nat) (l : List α) :
    (takeLast n l).length ≤ n := by
  simp only [takeLast, List.length_drop]
  omega

theorem takeLast_of_length_le {α : Type} (n : Nat) (l : List α)
    (h : l.length ≤ n) : takeLast n l = l := by
  simp only [takeLast]
  have : l.length - n = 0 := by omega
  simp [this]

theorem takeLast_append_of_length_eq {α : Type} (n : Nat) (pre l : List α)
    (h : l.length = n) : takeLast n (pre ++ l) = l := by
  simp only [takeLast, List.length_append, h]
  have : pre.length + n - n = pre.length := by omega
  rw [this, List.drop_append_eq_append_drop]
  simp

theorem takeLast_takeLast {α : Type} (m n : Nat) (l : List α) (h : m ≤ n) :
    takeLast m (takeLast n l) = takeLast m l := by
  simp only [takeLast, List.drop_drop, List.length_drop]
  congr 1
  omega

/-! ### The SQL `ORDER BY ... LIMIT ...` pipeline

`sqlOrderLimitBy key count rows` sorts `rows` by ascending `key` and keeps
the first `count` results.  It is one concrete realisation of
`ORDER BY key LIMIT count`: the SQL fixes no order among rows with equal
keys, so no theorem below relies on where this particular sort places
ties; the full set of admissible `ORDER BY` executions is characterised
by `validOrderBy` further down. -/

def sqlOrderLimitBy {α : Type} (key : α → ℚ) (count : Nat) (rows : List α) :
    List α :=
  (rows.insertionSort (fun a b => key a ≤ key b)).take count

theorem sqlOrderLimitBy_length {α : Type} (key : α → ℚ) (count : Nat)
    (rows : List α) :
    (sqlOrderLimitBy key count rows).length = min count rows.length := by
  simp [sqlOrderLimitBy, List.length_take, List.length_insertionSort]

theorem sqlOrderLimitBy_subset {α : Type} (key : α → ℚ) (count : Nat)
    (rows : List α) :
    ∀ a ∈ sqlOrderLimitBy key count rows, a ∈ rows := by
  intro a ha
  have h1 : a ∈ rows.insertionSort (fun a b => key a ≤ key b) :=
    List.mem_of_mem_take ha
  exact (List.perm_insertionSort _ rows).mem_iff.mp h1

theorem sqlOrderLimitBy_sorted {α : Type} (key : α → ℚ) (count : Nat)
    (rows : List α) :
    (sqlOrderLimitBy key count rows).Pairwise (fun a b => key a ≤ key b) := by
  haveI : IsTotal α (fun a b => key a ≤ key b) := ⟨fun a b => le_total _ _⟩
  haveI : IsTrans α (fun a b => key a ≤ key b) :=
    ⟨fun _ _ _ hab hbc => le_trans hab hbc⟩
  have h := List.sorted_insertionSort (fun a b => key a ≤ key b) rows
  exact h.sublist (List.take_sublist count _)

theorem sqlOrderLimitBy_perm_of_le {α : Type} (key : α → ℚ) (count : Nat)
    (rows : List α) (h : rows.length ≤ count) :
    (sqlOrderLimitBy key count rows).Perm rows := by
  unfold sqlOrderLimitBy
  rw [List.take_of_length_le (by simpa [List.length_insertionSort] using h)]
  exact List.perm_insertionSort _ rows

/-- Everything discarded by `LIMIT` has a key at least as large as every
returned row (returned rows are the best-ranked ones). -/
theorem sqlOrderLimitBy_optimal {α : Type} (key : α → ℚ) (count : Nat)
    (rows : List α) :
    ∀ r ∈ rows, r ∉ sqlOrderLimitBy key count rows →
      ∀ o ∈ sqlOrderLimitBy key count rows, key o ≤ key r := by
  intro r hr hnot o ho
  haveI : IsTotal α (fun a b => key a ≤ key b) := ⟨fun a b => le_total _ _⟩
  haveI : IsTrans α (fun a b => key a ≤ key b) :=
    ⟨fun _ _ _ hab hbc => le_trans hab hbc⟩
  set sorted := rows.insertionSort (fun a b => key a ≤ key b) with hsorted
  have hmem : r ∈ sorted := (List.perm_insertionSort _ rows).mem_iff.mpr hr
  have hsplit : r ∈ sorted.take count ∨ r ∈ sorted.drop count := by
    rw [← List.mem_append, List.take_append_drop]
    exact hmem
  have hdrop : r ∈ sorted.drop count := by
    rcases hsplit with h | h
    · exact absurd h hnot
    · exact h
  have hsortedpw : sorted.Pairwise (fun a b => key a ≤ key b) :=
    List.sorted_insertionSort (fun a b => key a ≤ key b) rows
  have hpw := List.pairwise_append.mp
    (show (sorted.take count ++ sorted.drop count).Pairwise
        (fun a b => key a ≤ key b) by
      rw [List.take_append_drop]
      exact hsortedpw)
  exact hpw.2.2 o ho r hdrop

/-! ### Stored chunk rows and the vector search functions

The vector type and the pgvector cosine-distance operator `<=>` are
abstract parameters (`V`, `dist`); similarity is `1 - dist`, as computed by
both SQL functions. -/

/-- A row of the single-tenant `public.pdf_chunks` table
(`supabase-schema.sql`, lines 5-15).  A stored table is a list of such rows
in insertion order.  The `embedding` column is nullable. -/
structure PdfChunkRow (V : Type) where
  id : String
  filename : String
  chunk_index : Int
  chunk_text : String
  embedding : Option V
deriving DecidableEq

/-- A row of the multi-tenant `public.pdf_chunks` table
(`supabase-schema-multi-tenant.sql`, lines 45-58), which adds the owning
`user_id`. -/
structure UserPdfChunkRow (V : Type) where
  id : String
  user_id : String
  filename : String
  chunk_index : Int
  chunk_text : String
  embedding : Option V
deriving DecidableEq

/-- A row of the `RETURNS TABLE` of both search functions. -/
structure MatchResultRow where
  id : String
  filename : String
  chunk_index : Int
  chunk_text : String
  similarity : ℚ
deriving DecidableEq

/-- `pc.embedding <=> query_embedding` for a single-tenant row (0 when the
embedding is NULL; the `WHERE` clause rules that case out anyway). -/
def pdfRowDist {V : Type} (dist : V → V → ℚ) (q : V) (r : PdfChunkRow V) : ℚ :=
  match r.embedding with
  | some e => dist e q
  | none => 0

/-- Same for a multi-tenant row. -/
def userRowDist {V : Type} (dist : V → V → ℚ) (q : V) (r : UserPdfChunkRow V) :
    ℚ :=
  match r.embedding with
  | some e => dist e q
  | none => 0

/-- The `WHERE` clause of `match_pdf_chunks`:
`pc.embedding IS NOT NULL AND 1 - (pc.embedding <=> q) > match_threshold`. -/
def pdfRowPass {V : Type} (dist : V → V → ℚ) (q : V) (match_threshold : ℚ)
    (r : PdfChunkRow V) : Bool :=
  r.embedding.isSome && decide (1 - pdfRowDist dist q r > match_threshold)

/-- The `WHERE` clause of `match_user_pdf_chunks`:
`pc.user_id = p_user_id AND pc.embedding IS NOT NULL AND
 1 - (pc.embedding <=> q) > p_match_threshold`. -/
def userRowPass {V : Type} (dist : V → V → ℚ) (p_user_id : String) (q : V)
    (p_match_threshold : ℚ) (r : UserPdfChunkRow V) : Bool :=
  decide (r.user_id = p_user_id) && r.embedding.isSome
    && decide (1 - userRowDist dist q r > p_match_threshold)

/-- The `SELECT` projection of `match_pdf_chunks`. -/
def pdfRowSelect {V : Type} (dist : V → V → ℚ) (q : V) (r : PdfChunkRow V) :
    MatchResultRow :=
  ⟨r.id, r.filename, r.chunk_index, r.chunk_text, 1 - pdfRowDist dist q r⟩

/-- The `SELECT` projection of `match_user_pdf_chunks`. -/
def userRowSelect {V : Type} (dist : V → V → ℚ) (q : V)
    (r : UserPdfChunkRow V) : MatchResultRow :=
  ⟨r.id, r.filename, r.chunk_index, r.chunk_text, 1 - userRowDist dist q r⟩

/-- The rows kept by `match_pdf_chunks` before projection: `WHERE`, then
`ORDER BY pc.embedding <=> query_embedding`, then `LIMIT match_count`. -/
def matchPdfRows {V : Type} (dist : V → V → ℚ) (q : V) (match_count : Nat)
    (match_threshold : ℚ) (rows : List (PdfChunkRow V)) :
    List (PdfChunkRow V) :=
  sqlOrderLimitBy (pdfRowDist dist q) match_count
    (rows.filter (pdfRowPass dist q match_threshold))

/-- The single-tenant search function `match_pdf_chunks`
(`supabase-schema.sql`, lines 32-62). -/
def match_pdf_chunks {V : Type} (dist : V → V → ℚ) (q : V) (match_count : Nat)
    (match_threshold : ℚ) (rows : List (PdfChunkRow V)) : List MatchResultRow :=
  (matchPdfRows dist q match_count match_threshold rows).map
    (pdfRowSelect dist q)

/-- The rows kept by `match_user_pdf_chunks` before projection. -/
def matchUserPdfRows {V : Type} (dist : V → V → ℚ) (p_user_id : String)
    (q : V) (p_match_count : Nat) (p_match_threshold : ℚ)
    (rows : List (UserPdfChunkRow V)) : List (UserPdfChunkRow V) :=
  sqlOrderLimitBy (userRowDist dist q) p_match_count
    (rows.filter (userRowPass dist p_user_id q p_match_threshold))

/-- The user-scoped (multi-tenant) search function `match_user_pdf_chunks`
(`supabase-schema-multi-tenant.sql`, lines 187-221). -/
def match_user_pdf_chunks {V : Type} (dist : V → V → ℚ) (p_user_id : String)
    (q : V) (p_match_count : Nat) (p_match_threshold : ℚ)
    (rows : List (UserPdfChunkRow V)) : List MatchResultRow :=
  (matchUserPdfRows dist p_user_id q p_match_count p_match_threshold rows).map
    (userRowSelect dist q)

/-! ### Concrete retrieval scenario (spec section 8, scenario 3)

Four stored chunks whose similarities to the scenario query are
`0.92, 0.81, 0.65, 0.40`.  The abstract distance function reads the
distance directly off the stored embedding (`V := ℚ`). -/

def scenarioDist : ℚ → ℚ → ℚ := fun e _ => e

def scenarioRows : List (PdfChunkRow ℚ) :=
  [⟨"id1", "doc.pdf", 0, "alpha", some (8/100)⟩,
   ⟨"id2", "doc.pdf", 1, "beta", some (19/100)⟩,
   ⟨"id3", "doc.pdf", 2, "gamma", some (35/100)⟩,
   ⟨"id4", "doc.pdf", 3, "delta", some (60/100)⟩]

/-- C1: for every tenant scope, query vector, top_k and threshold,
`match_user_pdf_chunks` returns only results projected from rows stored
under that tenant, and the tenant exclusion is part of the data-access
query itself: the output is unchanged when all other tenants' rows are
removed from the table, so cross-tenant rows never even participate in the
comparison (no post-filtering is involved). -/
theorem retriever_search_tenant_isolation {V : Type} (dist : V → V → ℚ)
    (t : String) (q : V) (top_k : Nat) (threshold : ℚ)
    (rows : List (UserPdfChunkRow V)) :
    (∀ o ∈ match_user_pdf_chunks dist t q top_k threshold rows,
      ∃ r, r ∈ rows ∧ r.user_id = t ∧ o = userRowSelect dist q r) ∧
    match_user_pdf_chunks dist t q top_k threshold rows
      = match_user_pdf_chunks dist t q top_k threshold
          (rows.filter (fun r => decide (r.user_id = t))) := by
  constructor
  · intro o ho
    unfold match_user_pdf_chunks at ho
    obtain ⟨r, hr, hro⟩ := List.mem_map.mp ho
    have hrF := sqlOrderLimitBy_subset _ _ _ r hr
    have hrmem := List.mem_filter.mp hrF
    refine ⟨r, hrmem.1, ?_, hro.symm⟩
    have hpass := hrmem.2
    unfold userRowPass at hpass
    simp only [Bool.and_eq_true, decide_eq_true_eq] at hpass
    exact hpass.1.1
  · unfold match_user_pdf_chunks matchUserPdfRows
    congr 1
    congr 1
    rw [List.filter_filter]
    apply List.filter_congr
    intro r _
    by_cases h : r.user_id = t
    · simp [userRowPass, h]
    · simp [userRowPass, h]

/-- Witness for C1 at a concrete two-tenant table: the single returned
result comes from a row owned by tenant `"alice"`, and removing the other
tenant's rows leaves the output unchanged. -/
theorem retriever_search_tenant_isolation_witness :
    (∃ r, r ∈ ([⟨"a1", "alice", "a.pdf", 0, "ta", some (1/10)⟩,
        ⟨"b1", "bob", "b.pdf", 0, "tb", some (5/100)⟩] :
          List (UserPdfChunkRow ℚ)) ∧ r.user_id = "alice" ∧
      (⟨"a1", "a.pdf", 0, "ta", 9/10⟩ : MatchResultRow)
        = userRowSelect scenarioDist 0 r) ∧
    match_user_pdf_chunks scenarioDist "alice" 0 5 (7/10)
        [⟨"a1", "alice", "a.pdf", 0, "ta", some (1/10)⟩,
         ⟨"b1", "bob", "b.pdf", 0, "tb", some (5/100)⟩]
      = match_user_pdf_chunks scenarioDist "alice" 0 5 (7/10)
          (([⟨"a1", "alice", "a.pdf", 0, "ta", some (1/10)⟩,
             ⟨"b1", "bob", "b.pdf", 0, "tb", some (5/100)⟩] :
               List (UserPdfChunkRow ℚ)).filter
            (fun r => decide (r.user_id = "alice"))) := by
  have h := retriever_search_tenant_isolation scenarioDist "alice"
    (0 : ℚ) 5 (7/10)
    [⟨"a1", "alice", "a.pdf", 0, "ta", some (1/10)⟩,
     ⟨"b1", "bob", "b.pdf", 0, "tb", some (5/100)⟩]
  have hout : match_user_pdf_chunks scenarioDist "alice" (0 : ℚ) 5 (7/10)
      [⟨"a1", "alice", "a.pdf", 0, "ta", some (1/10)⟩,
       ⟨"b1", "bob", "b.pdf", 0, "tb", some (5/100)⟩]
      = [⟨"a1", "a.pdf", 0, "ta", 9/10⟩] := by
    norm_num [match_user_pdf_chunks, matchUserPdfRows, sqlOrderLimitBy,
      userRowPass, userRowDist, userRowSelect, scenarioDist, List.filter,
      List.insertionSort, List.orderedInsert]
  refine ⟨h.1 ⟨"a1", "a.pdf", 0, "ta", 9/10⟩ ?_, h.2⟩
  rw [hout]
  exact List.mem_singleton.mpr rfl

/-- Concrete evaluation of the executable search on the scenario table:
only the 0.92 and 0.81 rows pass the 0.7 threshold, in that order. -/
theorem match_pdf_chunks_scenario_eval :
    match_pdf_chunks scenarioDist 0 5 (7/10) scenarioRows
      = [⟨"id1", "doc.pdf", 0, "alpha", 92/100⟩,
         ⟨"id2", "doc.pdf", 1, "beta", 81/100⟩] := by
  norm_num [match_pdf_chunks, matchPdfRows, sqlOrderLimitBy, scenarioRows,
    pdfRowPass, pdfRowDist, pdfRowSelect, scenarioDist, List.filter,
    List.insertionSort, List.orderedInsert]

theorem scenario_filter_eval :
    scenarioRows.filter (pdfRowPass scenarioDist 0 (7/10))
      = [⟨"id1", "doc.pdf", 0, "alpha", some (8/100)⟩,
         ⟨"id2", "doc.pdf", 1, "beta", some (19/100)⟩] := by
  norm_num [scenarioRows, pdfRowPass, pdfRowDist, scenarioDist, List.filter]

/-- The admissible result sequences of the query's
`ORDER BY pc.embedding <=> query_embedding` on a row list: any
permutation of the rows that is sorted by ascending key.  The query has
no secondary sort key and PostgreSQL fixes no order among rows with equal
keys, so every such permutation is a possible execution. -/
def validOrderBy {α : Type} (key : α → ℚ) (rows sorted : List α) : Prop :=
  sorted.Perm rows ∧ sorted.Pairwise (fun a b => key a ≤ key b)

/-- The admissible outputs of `match_pdf_chunks` under the
nondeterministic `ORDER BY` semantics: the `WHERE`-filtered rows in any
`validOrderBy` order, truncated by `LIMIT` and projected by `SELECT`. -/
def validMatchOutput {V : Type} (dist : V → V → ℚ) (q : V)
    (match_count : Nat) (match_threshold : ℚ) (rows : List (PdfChunkRow V))
    (out : List MatchResultRow) : Prop :=
  ∃ sorted, validOrderBy (pdfRowDist dist q)
      (rows.filter (pdfRowPass dist q match_threshold)) sorted ∧
    out = (sorted.take match_count).map (pdfRowSelect dist q)

/-- The executable `match_pdf_chunks` realises one admissible output. -/
theorem validMatchOutput_match_pdf_chunks {V : Type} (dist : V → V → ℚ)
    (q : V) (match_count : Nat) (match_threshold : ℚ)
    (rows : List (PdfChunkRow V)) :
    validMatchOutput dist q match_count match_threshold rows
      (match_pdf_chunks dist q match_count match_threshold rows) := by
  haveI : IsTotal (PdfChunkRow V)
      (fun a b => pdfRowDist dist q a ≤ pdfRowDist dist q b) :=
    ⟨fun a b => le_total _ _⟩
  haveI : IsTrans (PdfChunkRow V)
      (fun a b => pdfRowDist dist q a ≤ pdfRowDist dist q b) :=
    ⟨fun _ _ _ hab hbc => le_trans hab hbc⟩
  exact ⟨(rows.filter (pdfRowPass dist q match_threshold)).insertionSort
      (fun a b => pdfRowDist dist q a ≤ pdfRowDist dist q b),
    ⟨List.perm_insertionSort _ _, List.sorted_insertionSort _ _⟩, rfl⟩

/-- Two key-sorted permutations of each other are equal when the key is
injective on their members (no ties). -/
theorem sorted_perm_eq {α : Type} (key : α → ℚ) :
    ∀ (l1 l2 : List α), l1.Perm l2 →
      l1.Pairwise (fun a b => key a ≤ key b) →
      l2.Pairwise (fun a b => key a ≤ key b) →
      (∀ a ∈ l1, ∀ b ∈ l1, key a = key b → a = b) →
      l1 = l2 := by
  intro l1
  induction l1 with
  | nil =>
    intro l2 hperm _ _ _
    exact (List.Perm.eq_nil hperm.symm).symm
  | cons x xs ih =>
    intro l2 hperm hs1 hs2 hinj
    cases l2 with
    | nil => cases List.Perm.eq_nil hperm
    | cons y ys =>
      have hxmem : x ∈ y :: ys := hperm.mem_iff.mp (List.mem_cons_self x xs)
      have hymem : y ∈ x :: xs := hperm.mem_iff.mpr (List.mem_cons_self y ys)
      have hxy : key x ≤ key y := by
        rcases List.mem_cons.mp hymem with h | h
        · rw [h]
        · exact (List.pairwise_cons.mp hs1).1 y h
      have hyx : key y ≤ key x := by
        rcases List.mem_cons.mp hxmem with h | h
        · rw [h]
        · exact (List.pairwise_cons.mp hs2).1 x h
      have hxeqy : x = y :=
        hinj x (List.mem_cons_self x xs) y hymem (le_antisymm hxy hyx)
      subst hxeqy
      have hperm2 : xs.Perm ys := hperm.cons_inv
      have htail := ih ys hperm2 (List.pairwise_cons.mp hs1).2
        (List.pairwise_cons.mp hs2).2
        (fun a ha b hb =>
          hinj a (List.mem_cons_of_mem _ ha) b (List.mem_cons_of_mem _ hb))
      rw [htail]

/-- Two stored rows with identical embeddings, hence tied similarity 0.9:
the row with id `"early"` was stored first, `"late"` second. -/
def tieRows : List (PdfChunkRow ℚ) :=
  [⟨"early", "doc.pdf", 0, "first-stored", some (1/10)⟩,
   ⟨"late", "doc.pdf", 1, "second-stored", some (1/10)⟩]

/-- Counterexample to C4: `match_pdf_chunks` orders only by
`pc.embedding <=> query_embedding`, with no secondary sort key, so on two
rows with tied similarity the query semantics admits the execution that
returns the later-stored chunk first; both orders are admissible outputs
and they differ, so "ties are broken by original insertion order (the
earlier-stored chunk wins)" is not a property of the function. -/
theorem retriever_tie_order_counterexample :
    validMatchOutput scenarioDist 0 5 (7/10) tieRows
      [⟨"late", "doc.pdf", 1, "second-stored", 9/10⟩,
       ⟨"early", "doc.pdf", 0, "first-stored", 9/10⟩] ∧
    validMatchOutput scenarioDist 0 5 (7/10) tieRows
      [⟨"early", "doc.pdf", 0, "first-stored", 9/10⟩,
       ⟨"late", "doc.pdf", 1, "second-stored", 9/10⟩] ∧
    ([⟨"late", "doc.pdf", 1, "second-stored", 9/10⟩,
      ⟨"early", "doc.pdf", 0, "first-stored", 9/10⟩] :
        List MatchResultRow)
      ≠ [⟨"early", "doc.pdf", 0, "first-stored", 9/10⟩,
         ⟨"late", "doc.pdf", 1, "second-stored", 9/10⟩] := by
  have hfilter : tieRows.filter (pdfRowPass scenarioDist 0 (7/10))
      = tieRows := by
    norm_num [tieRows, pdfRowPass, pdfRowDist, scenarioDist, List.filter]
  refine ⟨?_, ?_, ?_⟩
  · refine ⟨[⟨"late", "doc.pdf", 1, "second-stored", some (1/10)⟩,
      ⟨"early", "doc.pdf", 0, "first-stored", some (1/10)⟩], ⟨?_, ?_⟩, ?_⟩
    · rw [hfilter]
      exact List.Perm.swap _ _ _
    · norm_num [List.pairwise_cons, pdfRowDist, scenarioDist]
    · norm_num [pdfRowSelect, pdfRowDist, scenarioDist]
  · refine ⟨tieRows, ⟨?_, ?_⟩, ?_⟩
    · rw [hfilter]
    · norm_num [tieRows, List.pairwise_cons, pdfRowDist, scenarioDist]
    · norm_num [tieRows, pdfRowSelect, pdfRowDist, scenarioDist]
  · simp

/-- C4 (amended): under the query's `ORDER BY` semantics — which fixes no
order among tied similarities — every admissible output of
`match_pdf_chunks` consists of exactly the stored rows whose similarity
is strictly above the threshold, sorted by descending similarity,
truncated to at most `match_count`, with every excluded passing row no
more similar than any returned one; on the concrete scenario
(similarities 0.92, 0.81, 0.65, 0.40 — all distinct — threshold 0.7,
top_k 5) every admissible output is exactly the first two results in
that order. -/
theorem retriever_search_filter_rank_limit :
    (∀ (V : Type) (dist : V → V → ℚ) (q : V) (top_k : Nat) (threshold : ℚ)
      (rows : List (PdfChunkRow V)) (out : List MatchResultRow),
      validMatchOutput dist q top_k threshold rows out →
        out.length
            = min top_k (rows.filter (pdfRowPass dist q threshold)).length ∧
        (∀ o ∈ out, ∃ r, r ∈ rows ∧ pdfRowPass dist q threshold r = true
          ∧ o = pdfRowSelect dist q r) ∧
        out.Pairwise (fun a b => b.similarity ≤ a.similarity) ∧
        ((rows.filter (pdfRowPass dist q threshold)).length ≤ top_k →
          ∀ r ∈ rows, pdfRowPass dist q threshold r = true →
            pdfRowSelect dist q r ∈ out) ∧
        (∀ r ∈ rows, pdfRowPass dist q threshold r = true →
          pdfRowSelect dist q r ∉ out →
          ∀ o ∈ out, 1 - pdfRowDist dist q r ≤ o.similarity)) ∧
    (∀ out, validMatchOutput scenarioDist 0 5 (7/10) scenarioRows out →
      out = [⟨"id1", "doc.pdf", 0, "alpha", 92/100⟩,
             ⟨"id2", "doc.pdf", 1, "beta", 81/100⟩]) := by
  constructor
  · intro V dist q top_k threshold rows out hvalid
    obtain ⟨sorted, ⟨hperm, hsort⟩, hout⟩ := hvalid
    subst hout
    refine ⟨?_, ?_, ?_, ?_, ?_⟩
    · simp [List.length_take, hperm.length_eq]
    · intro o ho
      obtain ⟨r, hr, hro⟩ := List.mem_map.mp ho
      have hrF := hperm.mem_iff.mp (List.mem_of_mem_take hr)
      have hrmem := List.mem_filter.mp hrF
      exact ⟨r, hrmem.1, hrmem.2, hro.symm⟩
    · have h := hsort.sublist (List.take_sublist top_k sorted)
      refine List.Pairwise.map _ ?_ h
      intro a b hab
      simp only [pdfRowSelect]
      linarith
    · intro hlen r hr hpass
      have htake : sorted.take top_k = sorted :=
        List.take_of_length_le (by rw [hperm.length_eq]; exact hlen)
      rw [htake]
      exact List.mem_map_of_mem _
        (hperm.mem_iff.mpr (List.mem_filter.mpr ⟨hr, hpass⟩))
    · intro r hr hpass hnot o ho
      have hrs : r ∈ sorted :=
        hperm.mem_iff.mpr (List.mem_filter.mpr ⟨hr, hpass⟩)
      have hrdrop : r ∈ sorted.drop top_k := by
        have hsplit : r ∈ sorted.take top_k ∨ r ∈ sorted.drop top_k := by
          rw [← List.mem_append, List.take_append_drop]
          exact hrs
        rcases hsplit with h | h
        · exact absurd (List.mem_map_of_mem _ h) hnot
        · exact h
      obtain ⟨a, ha, hao⟩ := List.mem_map.mp ho
      have hpw := List.pairwise_append.mp
        (show (sorted.take top_k ++ sorted.drop top_k).Pairwise
            (fun a b => pdfRowDist dist q a ≤ pdfRowDist dist q b) by
          rw [List.take_append_drop]
          exact hsort)
      have hle := hpw.2.2 a ha r hrdrop
      rw [← hao]
      simp only [pdfRowSelect]
      linarith
  · intro out hvalid
    obtain ⟨sorted, ⟨hperm, hsort⟩, hout⟩ := hvalid
    rw [scenario_filter_eval] at hperm
    have hsorted2 : ([⟨"id1", "doc.pdf", 0, "alpha", some (8/100)⟩,
        ⟨"id2", "doc.pdf", 1, "beta", some (19/100)⟩] :
          List (PdfChunkRow ℚ)).Pairwise
        (fun a b => pdfRowDist scenarioDist 0 a
          ≤ pdfRowDist scenarioDist 0 b) := by
      norm_num [List.pairwise_cons, pdfRowDist, scenarioDist]
    have hinj : ∀ a ∈ sorted, ∀ b ∈ sorted,
        pdfRowDist scenarioDist 0 a = pdfRowDist scenarioDist 0 b →
          a = b := by
      intro a ha b hb hk
      have ha2 := hperm.mem_iff.mp ha
      have hb2 := hperm.mem_iff.mp hb
      simp only [List.mem_cons, List.not_mem_nil, or_false] at ha2 hb2
      rcases ha2 with ha2 | ha2 <;> rcases hb2 with hb2 | hb2 <;>
        subst ha2 <;> subst hb2
      · rfl
      · exfalso
        norm_num [pdfRowDist, scenarioDist] at hk
      · exfalso
        norm_num [pdfRowDist, scenarioDist] at hk
      · rfl
    have hsorteq := sorted_perm_eq (pdfRowDist scenarioDist 0) sorted
      [⟨"id1", "doc.pdf", 0, "alpha", some (8/100)⟩,
       ⟨"id2", "doc.pdf", 1, "beta", some (19/100)⟩]
      hperm hsort hsorted2 hinj
    rw [hout, hsorteq]
    norm_num [pdfRowSelect, pdfRowDist, scenarioDist]

/-- Witness for (amended) C4: the executable search realises an
admissible output on the scenario table, and the theorem applied to that
output yields the descending-similarity ordering. -/
theorem retriever_search_filter_rank_limit_witness :
    validMatchOutput scenarioDist 0 5 (7/10) scenarioRows
      [⟨"id1", "doc.pdf", 0, "alpha", 92/100⟩,
       ⟨"id2", "doc.pdf", 1, "beta", 81/100⟩] ∧
    ([⟨"id1", "doc.pdf", 0, "alpha", 92/100⟩,
      ⟨"id2", "doc.pdf", 1, "beta", 81/100⟩] :
        List MatchResultRow).Pairwise
      (fun a b => b.similarity ≤ a.similarity) := by
  have hval := validMatchOutput_match_pdf_chunks scenarioDist (0 : ℚ) 5
    (7/10) scenarioRows
  rw [match_pdf_chunks_scenario_eval] at hval
  exact ⟨hval, (retriever_search_filter_rank_limit.1 ℚ scenarioDist 0 5
    (7/10) scenarioRows _ hval).2.2.1⟩

/-! ### ChatThreadManager (rag-admin.ts, lines 1639-1740)

`localStorage.getItem` followed by `JSON.parse` is modelled as an
`Option (Option JsValue)`: `none` when nothing is stored under the key,
`some none` when the stored string is unparseable JSON (the `JSON.parse`
exception, caught by `loadThread`), and `some (some v)` for a parsed JSON
value `v`. -/

/-- A parsed JSON value, as produced by `JSON.parse`. -/
inductive JsValue where
  | jnull : JsValue
  | jbool : Bool → JsValue
  | jnum : ℚ → JsValue
  | jstr : String → JsValue
  | jarr : List JsValue → JsValue
  | jobj : List (String × JsValue) → JsValue

/-- JavaScript truthiness of a parsed JSON value. -/
def truthy : JsValue → Bool
  | .jnull => false
  | .jbool b => b
  | .jnum q => decide (q ≠ 0)
  | .jstr s => decide (s ≠ "")
  | .jarr _ => true
  | .jobj _ => true

/-- `Array.isArray`. -/
def isArray : JsValue → Bool
  | .jarr _ => true
  | _ => false

/-- JavaScript property access `v.key` (`undefined` is `none`). -/
def getField (v : JsValue) (key : String) : Option JsValue :=
  match v with
  | .jobj fields => fields.lookup key
  | _ => none

/-- An element of `ConversationThread.messages`
(`rag-admin.ts`, interface `ChatMessage`, lines 1639-1644). -/
structure ChatMessage where
  role : String
  content : String
  timestamp : ℚ
deriving DecidableEq

/-- `rag-admin.ts`, interface `ConversationThread`, lines 1646-1655. -/
structure ConversationThread where
  id : String
  messages : List ChatMessage
  createdAt : ℚ
  lastUpdated : ℚ
deriving DecidableEq

/-- `JSON.stringify` of a message, as written by `saveThread`. -/
def encodeMsg (m : ChatMessage) : JsValue :=
  .jobj [("role", .jstr m.role), ("content", .jstr m.content),
    ("timestamp", .jnum m.timestamp)]

/-- `JSON.stringify` of a thread, as written by `saveThread`. -/
def encodeThread (t : ConversationThread) : JsValue :=
  .jobj [("id", .jstr t.id), ("messages", .jarr (t.messages.map encodeMsg)),
    ("createdAt", .jnum t.createdAt), ("lastUpdated", .jnum t.lastUpdated)]

def decodeStr : Option JsValue → String
  | some (.jstr s) => s
  | _ => ""

def decodeNum : Option JsValue → ℚ
  | some (.jnum q) => q
  | _ => 0

/-- Reading a parsed message object through the `ChatMessage` type (the
unchecked TypeScript cast in `loadThread`). -/
def decodeMsg (v : JsValue) : ChatMessage :=
  ⟨decodeStr (getField v "role"), decodeStr (getField v "content"),
    decodeNum (getField v "timestamp")⟩

/-- Reading a parsed thread object through the `ConversationThread` type
(the unchecked TypeScript cast `return parsed` in `loadThread`). -/
def decodeThread (v : JsValue) : ConversationThread :=
  ⟨decodeStr (getField v "id"),
    (match getField v "messages" with
     | some (.jarr l) => l.map decodeMsg
     | _ => []),
    decodeNum (getField v "createdAt"),
    decodeNum (getField v "lastUpdated")⟩

/-- The shape validation in `loadThread`:
`parsed && parsed.messages && Array.isArray(parsed.messages)`. -/
def wellFormedThread (v : JsValue) : Bool :=
  truthy v &&
    (match getField v "messages" with
     | some m => truthy m && isArray m
     | none => false)

/-- The fresh empty thread created by `loadThread` when nothing valid is
stored (and by `clearThread`). -/
def freshThread (threadId : String) (now : ℚ) : ConversationThread :=
  ⟨threadId, [], now, now⟩

/-- `ChatThreadManager.loadThread` (rag-admin.ts, lines 1674-1695):
any parse failure or shape-invalid stored value falls through to a fresh
empty thread; a shape-valid stored value is returned as is. -/
def loadThread (stored : Option (Option JsValue)) (threadId : String)
    (now : ℚ) : ConversationThread :=
  match stored with
  | some (some parsed) =>
    if wellFormedThread parsed then decodeThread parsed
    else freshThread threadId now
  | _ => freshThread threadId now

/-- `const MAX_MESSAGES = 50` (rag-admin.ts, line 1658). -/
def MAX_MESSAGES : Nat := 50

/-- `ChatThreadManager.addMessage` (rag-admin.ts, lines 1704-1720) with the
message cap as an explicit parameter: push the new message, stamp it with
`now`, and when the length exceeds the cap keep only the last `cap`
messages (`slice(-cap)`). -/
def addMessageCapped (cap : Nat) (t : ConversationThread)
    (role content : String) (now : ℚ) : ConversationThread :=
  let msgs := t.messages ++ [⟨role, content, now⟩]
  { t with
    messages := if msgs.length > cap then takeLast cap msgs else msgs,
    lastUpdated := now }

/-- `ChatThreadManager.addMessage` at the source's cap of `MAX_MESSAGES`. -/
def addMessage (t : ConversationThread) (role content : String) (now : ℚ) :
    ConversationThread :=
  addMessageCapped MAX_MESSAGES t role content now

/-- `ChatThreadManager.clearThread` (rag-admin.ts, lines 1730-1738). -/
def clearThread (newThreadId : String) (now : ℚ) : ConversationThread :=
  freshThread newThreadId now

/-- `ChatThreadManager.getThreadForAPI` (rag-admin.ts, lines 1726-1729):
`this.thread.messages.slice(-20)`. -/
def getThreadForAPI (t : ConversationThread) : List ChatMessage :=
  takeLast 20 t.messages

theorem decodeMsg_encodeMsg (m : ChatMessage) : decodeMsg (encodeMsg m) = m := by
  simp [decodeMsg, encodeMsg, getField, List.lookup, decodeStr, decodeNum]

theorem decodeThread_encodeThread (t : ConversationThread) :
    decodeThread (encodeThread t) = t := by
  cases t with
  | mk id messages createdAt lastUpdated =>
    simp only [decodeThread, encodeThread, getField, List.lookup]
    simp [decodeStr, decodeNum, List.map_map]
    calc List.map (decodeMsg ∘ encodeMsg) messages
        = messages.map (fun m => decodeMsg (encodeMsg m)) := rfl
      _ = messages := by
          rw [List.map_congr_left (fun m _ => decodeMsg_encodeMsg m)]
          exact List.map_id messages

theorem wellFormedThread_encodeThread (t : ConversationThread) :
    wellFormedThread (encodeThread t) = true := by
  simp [wellFormedThread, encodeThread, getField, List.lookup, truthy, isArray]

theorem loadThread_encodeThread (t : ConversationThread) (threadId : String)
    (now : ℚ) :
    loadThread (some (some (encodeThread t))) threadId now = t := by
  simp [loadThread, wellFormedThread_encodeThread, decodeThread_encodeThread]

/-- A thread whose persisted form is shape-valid but holds 51 messages. -/
def thread51 : ConversationThread :=
  ⟨"t", List.replicate 51 ⟨"user", "hi", 0⟩, 0, 0⟩

/-- Counterexample to C3: `loadThread` performs no re-truncation, so a
shape-valid persisted thread with 51 messages is reloaded with 51 messages,
which exceeds `MAX_MESSAGES = 50` — a reachable (constructor) state above
the cap. -/
theorem thread_cap_reload_counterexample :
    (loadThread (some (some (encodeThread thread51))) "fresh" 0).messages.length
        = 51 ∧
    ¬ ((loadThread (some (some (encodeThread thread51)))
        "fresh" 0).messages.length ≤ MAX_MESSAGES) := by
  rw [loadThread_encodeThread thread51 "fresh" 0]
  constructor
  · simp [thread51]
  · simp [thread51, MAX_MESSAGES]

/-- C3 (amended): `addMessage` never lets the message list exceed the cap,
and when an append would exceed it the oldest message is the one evicted
(appending m1..m6 at cap 4 leaves [m3, m4, m5, m6]); reloading a thread the
manager itself persisted preserves the cap.  `loadThread` itself, however,
does not re-truncate, so the cap after a reload is only as good as the
stored value (see the counterexample). -/
theorem thread_cap_amended :
    (∀ (cap : Nat) (t : ConversationThread) (role content : String) (now : ℚ),
      t.messages.length ≤ cap →
      (addMessageCapped cap t role content now).messages.length ≤ cap) ∧
    (∀ (cap : Nat) (t : ConversationThread) (role content : String) (now : ℚ),
      0 < cap → t.messages.length = cap →
      (addMessageCapped cap t role content now).messages
        = t.messages.drop 1 ++ [⟨role, content, now⟩]) ∧
    (∀ (t : ConversationThread) (threadId : String) (now : ℚ),
      t.messages.length ≤ MAX_MESSAGES →
      (loadThread (some (some (encodeThread t))) threadId now).messages.length
        ≤ MAX_MESSAGES) ∧
    (addMessageCapped 4 (addMessageCapped 4 (addMessageCapped 4
      (addMessageCapped 4 (addMessageCapped 4 (addMessageCapped 4
        (freshThread "t" 0) "user" "m1" 1) "user" "m2" 2) "user" "m3" 3)
        "user" "m4" 4) "user" "m5" 5) "user" "m6" 6).messages
      = [⟨"user", "m3", 3⟩, ⟨"user", "m4", 4⟩, ⟨"user", "m5", 5⟩,
         ⟨"user", "m6", 6⟩] := by
  refine ⟨?_, ?_, ?_, ?_⟩
  · intro cap t role content now hlen
    simp only [addMessageCapped]
    split
    · exact takeLast_length_le cap _
    · rename_i hcond
      simp only [List.length_append, List.length_singleton] at hcond ⊢
      omega
  · intro cap t role content now hpos hlen
    simp only [addMessageCapped]
    rw [if_pos (by simp [List.length_append, hlen])]
    unfold takeLast
    simp only [List.length_append, List.length_singleton, hlen]
    have h1 : cap + 1 - cap = 1 := by omega
    rw [h1, List.drop_append_eq_append_drop]
    have h2 : 1 - t.messages.length = 0 := by omega
    rw [h2]
    simp
  · intro t threadId now hlen
    rw [loadThread_encodeThread t threadId now]
    exact hlen
  · simp [addMessageCapped, freshThread, takeLast]

/-- Witness for (amended) C3: at cap 2, appending to a full thread keeps
the cap and drops the oldest message. -/
theorem thread_cap_amended_witness :
    (addMessageCapped 2 ⟨"w", [⟨"user", "a", 0⟩, ⟨"user", "b", 0⟩], 0, 0⟩
      "user" "c" 1).messages
      = [⟨"user", "b", 0⟩, ⟨"user", "c", 1⟩] := by
  have h := thread_cap_amended.2.1 2
    ⟨"w", [⟨"user", "a", 0⟩, ⟨"user", "b", 0⟩], 0, 0⟩ "user" "c" 1
    (by omega) (by rfl)
  rw [h]
  rfl

/-- C8: `loadThread` is a total function of the stored value — it returns
a thread for every possible persisted state instead of raising.  A
shape-valid stored thread (in particular anything `saveThread` wrote) is
restored unchanged; unparseable JSON, an absent item, and any shape-invalid
value (non-truthy root, missing or non-array `messages`) are discarded in
favour of a fresh empty thread. -/
theorem thread_load_never_fails (threadId : String) (now : ℚ) :
    (∀ t : ConversationThread,
      loadThread (some (some (encodeThread t))) threadId now = t) ∧
    (∀ v : JsValue, wellFormedThread v = false →
      loadThread (some (some v)) threadId now = freshThread threadId now) ∧
    (∀ v : JsValue, wellFormedThread v = true →
      loadThread (some (some v)) threadId now = decodeThread v) ∧
    loadThread (some none) threadId now = freshThread threadId now ∧
    loadThread none threadId now = freshThread threadId now := by
  refine ⟨fun t => loadThread_encodeThread t threadId now, ?_, ?_, rfl, rfl⟩
  · intro v hv
    simp [loadThread, hv]
  · intro v hv
    simp [loadThread, hv]

/-- Witness for C8: a concrete persisted thread round-trips, a stored
object whose `messages` field is a string is discarded, and a parse
failure yields the fresh thread. -/
theorem thread_load_never_fails_witness :
    loadThread (some (some (encodeThread
        ⟨"x", [⟨"assistant", "hello", 5⟩], 1, 2⟩))) "f" 0
      = ⟨"x", [⟨"assistant", "hello", 5⟩], 1, 2⟩ ∧
    loadThread (some (some (.jobj [("messages", .jstr "oops")]))) "f" 0
      = freshThread "f" 0 ∧
    loadThread (some none) "f" 0 = freshThread "f" 0 := by
  refine ⟨(thread_load_never_fails "f" 0).1 _,
    (thread_load_never_fails "f" 0).2.1 _ ?_,
    (thread_load_never_fails "f" 0).2.2.2.1⟩
  simp [wellFormedThread, getField, List.lookup, truthy, isArray]

theorem takeLast_length_eq_min {α : Type} (n : Nat) (l : List α) :
    (takeLast n l).length = min n l.length := by
  simp only [takeLast, List.length_drop]
  omega

/-! ### rag-chat.js: prompt assembly (lines 57-90) -/

/-- An OpenAI-format chat message as built by `buildMessagesWithContext`. -/
structure ApiMessage where
  role : String
  content : String
deriving DecidableEq

/-- `prepareConversationHistory` (rag-chat.js, lines 63-69): map request
history entries to `{role, content}`. -/
def prepareConversationHistory (history : List ChatMessage) :
    List ApiMessage :=
  history.map (fun m => ⟨m.role, m.content⟩)

/-- `contextChunks.map((c, i) => ...)`: each retrieved chunk rendered with
its 1-based index and source filename. -/
def formatChunks (i : Nat) : List MatchResultRow → List String
  | [] => []
  | c :: cs =>
    ("Chunk " ++ toString (i + 1) ++ " (" ++ c.filename ++ "):\n"
        ++ c.chunk_text) :: formatChunks (i + 1) cs

/-- Continuation of `Array.prototype.join(sep)` after the first element. -/
def joinRest (sep : String) : List String → String
  | [] => ""
  | x :: xs => sep ++ x ++ joinRest sep xs

/-- JavaScript `Array.prototype.join(sep)`. -/
def joinSep (sep : String) : List String → String
  | [] => ""
  | x :: xs => x ++ joinRest sep xs

/-- The rendered `Context` block: `.join('\n\n')` of the formatted chunks. -/
def chunksContext (chunks : List MatchResultRow) : String :=
  joinSep "\n\n" (formatChunks 0 chunks)

/-- The `currentPrompt` template literal of `buildMessagesWithContext`. -/
def currentPrompt (chunks : List MatchResultRow)
    (userQuery userInstruction : String) : String :=
  userInstruction ++ "\n\nContext:\n" ++ chunksContext chunks
    ++ "\n\nQuestion: " ++ userQuery

/-- `buildMessagesWithContext` (rag-chat.js, lines 70-88): a system
message, then the last 10 history messages (`history.slice(-10)`), then one
user message holding the instruction, the rendered chunks and the query. -/
def buildMessagesWithContext (systemPrompt : String)
    (contextChunks : List MatchResultRow) (userQuery userInstruction : String)
    (history : List ChatMessage) : List ApiMessage :=
  [⟨"system", systemPrompt⟩]
    ++ prepareConversationHistory (takeLast 10 history)
    ++ [⟨"user", currentPrompt contextChunks userQuery userInstruction⟩]

/-- Total content length of an assembled message list.  The source tracks
no size at all; this measure only serves to compare the assembled prompt
against a token budget. -/
def promptSize (messages : List ApiMessage) : Nat :=
  (messages.map (fun m => m.content.length)).sum

theorem joinRest_mem_decomp (sep : String) (parts : List String) :
    ∀ s ∈ parts, ∃ a b, joinRest sep parts = a ++ s ++ b := by
  induction parts with
  | nil => intro s hs; cases hs
  | cons x xs ih =>
    intro s hs
    rcases List.mem_cons.mp hs with h | h
    · exact ⟨sep, joinRest sep xs, by rw [h]; simp [joinRest, String.append_assoc]⟩
    · obtain ⟨a, b, hab⟩ := ih s h
      exact ⟨sep ++ x ++ a, b, by simp [joinRest, hab, String.append_assoc]⟩

theorem joinSep_mem_decomp (sep : String) (parts : List String) :
    ∀ s ∈ parts, ∃ a b, joinSep sep parts = a ++ s ++ b := by
  intro s hs
  cases parts with
  | nil => cases hs
  | cons x xs =>
    rcases List.mem_cons.mp hs with h | h
    · exact ⟨"", joinRest sep xs, by rw [h]; simp [joinSep, String.append_assoc]⟩
    · obtain ⟨a, b, hab⟩ := joinRest_mem_decomp sep xs s h
      exact ⟨x ++ a, b, by simp [joinSep, hab, String.append_assoc]⟩

theorem formatChunks_mem (chunks : List MatchResultRow) :
    ∀ c ∈ chunks, ∀ i : Nat, ∃ a, (a ++ c.chunk_text) ∈ formatChunks i chunks := by
  induction chunks with
  | nil => intro c hc; cases hc
  | cons x xs ih =>
    intro c hc i
    rcases List.mem_cons.mp hc with h | h
    · subst h
      exact ⟨"Chunk " ++ toString (i + 1) ++ " (" ++ c.filename ++ "):\n",
        List.mem_cons_self _ _⟩
    · obtain ⟨a, ha⟩ := ih c h (i + 1)
      exact ⟨a, List.mem_cons_of_mem _ ha⟩

/-- Any retrieved chunk's text occurs verbatim inside the assembled user
prompt. -/
theorem currentPrompt_contains_chunk (chunks : List MatchResultRow)
    (userQuery userInstruction : String) :
    ∀ c ∈ chunks, ∃ a b,
      currentPrompt chunks userQuery userInstruction = a ++ c.chunk_text ++ b := by
  intro c hc
  obtain ⟨a0, ha0⟩ := formatChunks_mem chunks c hc 0
  obtain ⟨a1, b1, hab⟩ := joinSep_mem_decomp "\n\n" (formatChunks 0 chunks)
    (a0 ++ c.chunk_text) ha0
  refine ⟨userInstruction ++ "\n\nContext:\n" ++ a1 ++ a0,
    b1 ++ "\n\nQuestion: " ++ userQuery, ?_⟩
  simp [currentPrompt, chunksContext, hab, String.append_assoc]

/-- Counterexample to C5: the assembler enforces no token budget.  Even
with every input empty the assembled prompt has positive size, so with
`token_budget = 0` the output exceeds the budget; the claim's universally
quantified budget bound is false. -/
theorem context_budget_counterexample :
    ¬ (promptSize (buildMessagesWithContext "" [] "" "" []) ≤ 0) := by
  simp only [promptSize, buildMessagesWithContext, prepareConversationHistory,
    takeLast, currentPrompt, chunksContext, formatChunks, joinSep]
  decide

/-- C5 (amended): `buildMessagesWithContext` applies no token budget and
never drops retrieved chunks; its only truncation keeps the last 10
history messages (so the oldest history entries are the ones dropped).
The system prompt is always the first message, the assembled user message
with the query is always the last, and every retrieved chunk's text
appears verbatim in it. -/
theorem context_assembly_amended :
    ∀ (systemPrompt : String) (chunks : List MatchResultRow)
      (query userInstruction : String) (history : List ChatMessage),
      (buildMessagesWithContext systemPrompt chunks query userInstruction
          history).head? = some ⟨"system", systemPrompt⟩ ∧
      (buildMessagesWithContext systemPrompt chunks query userInstruction
          history).getLast?
        = some ⟨"user", currentPrompt chunks query userInstruction⟩ ∧
      (∃ p, currentPrompt chunks query userInstruction = p ++ query) ∧
      (∀ c ∈ chunks, ∃ a b,
        currentPrompt chunks query userInstruction = a ++ c.chunk_text ++ b) ∧
      (buildMessagesWithContext systemPrompt chunks query userInstruction
          history).length = 2 + min 10 history.length ∧
      ((buildMessagesWithContext systemPrompt chunks query userInstruction
          history).drop 1).dropLast
        = prepareConversationHistory (takeLast 10 history) := by
  intro systemPrompt chunks query userInstruction history
  refine ⟨rfl, ?_, ?_, ?_, ?_, ?_⟩
  · show ((([(⟨"system", systemPrompt⟩ : ApiMessage)]
        ++ prepareConversationHistory (takeLast 10 history))
        ++ [(⟨"user", currentPrompt chunks query userInstruction⟩ :
              ApiMessage)]).getLast?)
      = some ⟨"user", currentPrompt chunks query userInstruction⟩
    rw [List.getLast?_concat]
  · exact ⟨userInstruction ++ "\n\nContext:\n" ++ chunksContext chunks
      ++ "\n\nQuestion: ", by simp [currentPrompt, String.append_assoc]⟩
  · exact currentPrompt_contains_chunk chunks query userInstruction
  · simp [buildMessagesWithContext, prepareConversationHistory,
      takeLast_length_eq_min]
    omega
  · show (prepareConversationHistory (takeLast 10 history)
        ++ [(⟨"user", currentPrompt chunks query userInstruction⟩ :
              ApiMessage)]).dropLast
      = prepareConversationHistory (takeLast 10 history)
    rw [List.dropLast_concat]

/-- Witness for (amended) C5 at one chunk and a twelve-message history:
the chunk text appears in the prompt and exactly the last 10 history
entries survive. -/
theorem context_assembly_amended_witness :
    (∃ a b, currentPrompt [⟨"idA", "a.pdf", 0, "AAA", 1⟩] "q" "inst"
        = a ++ "AAA" ++ b) ∧
    (buildMessagesWithContext "sys" [] "q" "inst"
        (List.replicate 12 ⟨"user", "old", 0⟩)).length = 12 := by
  have h := context_assembly_amended "sys" [] "q" "inst"
    (List.replicate 12 (⟨"user", "old", 0⟩ : ChatMessage))
  have h2 := context_assembly_amended "s"
    [(⟨"idA", "a.pdf", 0, "AAA", 1⟩ : MatchResultRow)] "q" "inst" []
  refine ⟨h2.2.2.2.1 (⟨"idA", "a.pdf", 0, "AAA", 1⟩ : MatchResultRow)
    (List.mem_singleton.mpr rfl), ?_⟩
  rw [h.2.2.2.2.1]
  simp

/-- The assembled prompt depends on the history only through its last 10
entries. -/
theorem buildMessagesWithContext_history_congr (sys : String)
    (chunks : List MatchResultRow) (query instr : String)
    (h1 h2 : List ChatMessage) (h : takeLast 10 h1 = takeLast 10 h2) :
    buildMessagesWithContext sys chunks query instr h1
      = buildMessagesWithContext sys chunks query instr h2 := by
  unfold buildMessagesWithContext
  rw [h]

/-- C10: the server-side prompt builder keeps only the last 10 history
messages, which is stricter than the client context window of 20
(`getThreadForAPI`), so history entries before the last 10 never influence
the assembled prompt. -/
theorem server_history_window :
    (∀ (sys : String) (chunks : List MatchResultRow) (query instr : String)
      (history : List ChatMessage),
      buildMessagesWithContext sys chunks query instr history
        = buildMessagesWithContext sys chunks query instr
            (takeLast 10 history)) ∧
    (∀ t : ConversationThread, (getThreadForAPI t).length ≤ 20) ∧
    (∀ (sys : String) (chunks : List MatchResultRow) (query instr : String)
      (t : ConversationThread),
      buildMessagesWithContext sys chunks query instr (getThreadForAPI t)
        = buildMessagesWithContext sys chunks query instr
            (takeLast 10 t.messages)) ∧
    (∀ (sys : String) (chunks : List MatchResultRow) (query instr : String)
      (pre h : List ChatMessage), h.length = 10 →
      buildMessagesWithContext sys chunks query instr (pre ++ h)
        = buildMessagesWithContext sys chunks query instr h) := by
  refine ⟨?_, ?_, ?_, ?_⟩
  · intro sys chunks query instr history
    exact buildMessagesWithContext_history_congr sys chunks query instr _ _
      (takeLast_takeLast 10 10 history (le_refl 10)).symm
  · intro t
    exact takeLast_length_le 20 t.messages
  · intro sys chunks query instr t
    refine buildMessagesWithContext_history_congr sys chunks query instr _ _ ?_
    show takeLast 10 (getThreadForAPI t) = takeLast 10 (takeLast 10 t.messages)
    unfold getThreadForAPI
    rw [takeLast_takeLast 10 20 t.messages (by omega),
      takeLast_takeLast 10 10 t.messages (le_refl 10)]
  · intro sys chunks query instr pre h hlen
    refine buildMessagesWithContext_history_congr sys chunks query instr _ _ ?_
    rw [takeLast_append_of_length_eq 10 pre h hlen,
      takeLast_of_length_le 10 h (by omega)]

/-- Witness for C10: prepending an eleventh (older) message to a
ten-message history does not change the assembled prompt. -/
theorem server_history_window_witness :
    (List.replicate 10 (⟨"user", "recent", 0⟩ : ChatMessage)).length = 10 ∧
    buildMessagesWithContext "s" [] "q" "i"
        (⟨"user", "older", 0⟩ :: List.replicate 10 ⟨"user", "recent", 0⟩)
      = buildMessagesWithContext "s" [] "q" "i"
          (List.replicate 10 ⟨"user", "recent", 0⟩) := by
  refine ⟨by simp, ?_⟩
  have h := server_history_window.2.2.2 "s" [] "q" "i"
    [(⟨"user", "older", 0⟩ : ChatMessage)]
    (List.replicate 10 (⟨"user", "recent", 0⟩ : ChatMessage)) (by simp)
  simpa using h

/-! ### rag-chat.js: the answer stream relay (lines 131-155)

The chat handler forwards decoded completion deltas to the HTTP response
with `res.write(content)` inside the `data` handler, calls `res.end()` on
`end`, and on a stream `error` logs it and likewise calls `res.end()`.
An event carries the decoded delta content (the SSE/JSON decoding of the
backend stream is the generation-backend boundary). -/

inductive StreamEvent where
  | data : String → StreamEvent
  | ended : StreamEvent
  | errored : StreamEvent
deriving DecidableEq

/-- The caller-visible state of the HTTP response: the texts written so
far and whether the response has been ended.  Nothing else is ever sent,
in particular no error marker. -/
structure RelayState where
  writes : List String
  ended : Bool
deriving DecidableEq

/-- One stream event, as handled by the three handlers: a delta is written
when truthy (non-empty), `end` ends the response, and `error` only logs
and ends the response. -/
def relayHandleEvent (st : RelayState) (e : StreamEvent) : RelayState :=
  match e with
  | .data c => { st with writes := st.writes ++ (if c ≠ "" then [c] else []) }
  | .ended => { st with ended := true }
  | .errored => { st with ended := true }

/-- Consume stream events in arrival order; once the response has been
ended (normally or by the error handler) no further event has any
effect. -/
def relayRunFrom (st : RelayState) : List StreamEvent → RelayState
  | [] => st
  | e :: es =>
    let st2 := relayHandleEvent st e
    if st2.ended then st2 else relayRunFrom st2 es

/-- A whole relayed stream, starting from the fresh response. -/
def relayRun (events : List StreamEvent) : RelayState :=
  relayRunFrom ⟨[], false⟩ events

/-- Concatenation of a list of written texts. -/
def concatAll : List String → String
  | [] => ""
  | x :: xs => x ++ concatAll xs

/-- The text the caller has received once the stream is over. -/
def finalText (st : RelayState) : String :=
  concatAll st.writes

theorem concatAll_filter_ne_empty (l : List String) :
    concatAll (l.filter (fun s => decide (s ≠ ""))) = concatAll l := by
  induction l with
  | nil => rfl
  | cons x xs ih =>
    by_cases hx : x = ""
    · subst hx
      rw [List.filter_cons_of_neg (by simp)]
      show concatAll (List.filter _ xs) = "" ++ concatAll xs
      rw [ih]
      simp
    · rw [List.filter_cons_of_pos (by simpa using hx)]
      show x ++ concatAll (List.filter _ xs) = x ++ concatAll xs
      rw [ih]

theorem relayRunFrom_deltas_terminal (deltas : List String)
    (tail : List StreamEvent) (e : StreamEvent) (he : e = .ended ∨ e = .errored) :
    ∀ st : RelayState, st.ended = false →
      relayRunFrom st (deltas.map .data ++ e :: tail)
        = ⟨st.writes ++ deltas.filter (fun s => decide (s ≠ "")), true⟩ := by
  induction deltas with
  | nil =>
    intro st hst
    rcases he with h | h <;> subst h <;>
      simp [relayRunFrom, relayHandleEvent]
  | cons c cs ih =>
    intro st hst
    show relayRunFrom st (.data c :: (cs.map .data ++ e :: tail)) = _
    have hstep : relayRunFrom st (.data c :: (cs.map .data ++ e :: tail))
        = relayRunFrom (relayHandleEvent st (.data c))
            (cs.map .data ++ e :: tail) := by
      simp [relayRunFrom, relayHandleEvent, hst]
    rw [hstep, ih _ (by simp [relayHandleEvent, hst])]
    by_cases hc : c = ""
    · subst hc
      simp [relayHandleEvent, List.filter_cons]
    · simp [relayHandleEvent, List.filter_cons, hc]

/-- Counterexample to C7: after the deltas `"Hel"`, `"lo "`, `" world"`
the backend errors; the relay's caller-visible outcome is *identical* to a
normal completion (no stream failure is signalled), and the preserved text
is `"Hello  world"` (the exact concatenation, with two spaces), not the
claim's `"Hello world"`. -/
theorem stream_relay_counterexample :
    relayRun [.data "Hel", .data "lo ", .data " world", .errored]
      = relayRun [.data "Hel", .data "lo ", .data " world", .ended] ∧
    finalText (relayRun [.data "Hel", .data "lo ", .data " world", .errored])
      = "Hello  world" ∧
    "Hello  world" ≠ "Hello world" := by
  refine ⟨by decide, by decide, by decide⟩

/-- C7 (amended): on a backend error mid-stream the relay stops consuming
(events after the error have no effect) and ends the response, and the
text delivered to the caller is exactly the concatenation of the deltas
already forwarded; but no distinguishable failure signal exists — the
outcome equals that of a normal completion of the same deltas. -/
theorem stream_relay_error_amended (deltas : List String)
    (post : List StreamEvent) :
    relayRun (deltas.map .data ++ .errored :: post)
      = relayRun (deltas.map .data ++ [.ended]) ∧
    (relayRun (deltas.map .data ++ .errored :: post)).ended = true ∧
    finalText (relayRun (deltas.map .data ++ .errored :: post))
      = concatAll deltas := by
  have h1 := relayRunFrom_deltas_terminal deltas post .errored (Or.inr rfl)
    ⟨[], false⟩ rfl
  have h2 := relayRunFrom_deltas_terminal deltas [] .ended (Or.inl rfl)
    ⟨[], false⟩ rfl
  unfold relayRun
  rw [h1, h2]
  refine ⟨rfl, rfl, ?_⟩
  show finalText ⟨[] ++ deltas.filter (fun s => decide (s ≠ "")), true⟩ = _
  simp only [finalText, List.nil_append]
  exact concatAll_filter_ne_empty deltas

/-! ### PythonPDFProcessor.generateEmbeddings (RagAIAssistantHero.tsx,
lines 402-444)

The OpenAI embeddings client is an abstract `provider`; one call embeds a
batch of texts and either returns a response or throws (`Except.error`).
The `for (let i = 0; i < chunks.length; i += batchSize)` loop is embedded
as recursion on the number of remaining iterations with the running index
`i`; `batchSize` is the source constant 10.  The single `try/catch`
around the whole loop means any batch failure aborts the entire call. -/

/-- A text chunk as produced by the Python processing step (the fields the
embedding/storage code reads; the opaque `section`/`metadata` payload
fields are not used by the embedded logic). -/
structure PChunk where
  text : String
  chunk_id : String
deriving DecidableEq

/-- A successful `openai.embeddings.create` response: one vector per
input, plus usage accounting. -/
structure ProviderResponse (V : Type) where
  data : List V
  total_tokens : ℚ
deriving DecidableEq

/-- One element pushed onto the `embeddings` array: the chunk itself, its
vector, and the approximated token count
(`response.usage.total_tokens / batch.length`). -/
structure EmbRecord (V : Type) where
  chunk : PChunk
  embedding : V
  tokens : ℚ
deriving DecidableEq

/-- The body of the batching loop, `n` iterations remaining, current
index `i`: take `chunks.slice(i, i + 10)`, embed it, then continue at
`i + 10`.  An error anywhere is the exception that aborts the whole
`try` block. -/
def generateEmbeddingsLoop {V : Type}
    (provider : List String → Except String (ProviderResponse V))
    (chunks : List PChunk) : Nat → Nat → Except String (List (EmbRecord V))
  | 0, _ => .ok []
  | n + 1, i =>
    let batch := (chunks.drop i).take 10
    match provider (batch.map (fun c => c.text)) with
    | .error e => .error e
    | .ok resp =>
      match generateEmbeddingsLoop provider chunks n (i + 10) with
      | .error e => .error e
      | .ok rest =>
        .ok ((batch.zip resp.data).map
          (fun p => ⟨p.1, p.2, resp.total_tokens / batch.length⟩) ++ rest)

/-- The number of iterations of `for (i = 0; i < len; i += 10)`. -/
def numBatches (len : Nat) : Nat := (len + 9) / 10

/-- `PythonPDFProcessor.generateEmbeddings`: embed all chunks in
sequential batches of 10; returns the embedding records on success and
the first error otherwise (no partial output, no failed-chunk list). -/
def generateEmbeddings {V : Type}
    (provider : List String → Except String (ProviderResponse V))
    (chunks : List PChunk) : Except String (List (EmbRecord V)) :=
  generateEmbeddingsLoop provider chunks (numBatches chunks.length) 0

/-- Number of embeddings in a call outcome (an error outcome carries
none). -/
def numEmbeddings {V : Type} (r : Except String (List (EmbRecord V))) : Nat :=
  match r with
  | .ok l => l.length
  | .error _ => 0

/-- Number of failed chunk references reported by a call outcome: the
source returns no such list in any outcome, so this is always zero. -/
def numFailedChunkRefs {V : Type} (r : Except String (List (EmbRecord V))) :
    Nat :=
  match r with
  | .ok _ => 0
  | .error _ => 0

theorem map_chunk_zip_map {V : Type} (l1 : List PChunk) (l2 : List V)
    (tk : ℚ) :
    List.map (fun r : EmbRecord V => r.chunk)
        ((l1.zip l2).map (fun p => ⟨p.1, p.2, tk⟩))
      = List.map Prod.fst (l1.zip l2) := by
  rw [List.map_map]
  rfl

theorem generateEmbeddingsLoop_ok_spec {V : Type}
    (provider : List String → Except String (ProviderResponse V))
    (hp : ∀ b resp, provider b = .ok resp → resp.data.length = b.length)
    (chunks : List PChunk) :
    ∀ (n i : Nat), (chunks.drop i).length ≤ 10 * n →
      ∀ l, generateEmbeddingsLoop provider chunks n i = .ok l →
        l.map (fun r => r.chunk) = chunks.drop i := by
  intro n
  induction n with
  | zero =>
    intro i hlen l hl
    have hnil : chunks.drop i = [] := List.eq_nil_of_length_eq_zero (by omega)
    simp only [generateEmbeddingsLoop] at hl
    cases hl
    simp [hnil]
  | succ n ih =>
    intro i hlen l hl
    simp only [generateEmbeddingsLoop] at hl
    cases hprov : provider (((chunks.drop i).take 10).map (fun c => c.text)) with
    | error e =>
      rw [hprov] at hl
      cases hl
    | ok resp =>
      rw [hprov] at hl
      cases hrec : generateEmbeddingsLoop provider chunks n (i + 10) with
      | error e =>
        rw [hrec] at hl
        cases hl
      | ok rest =>
        rw [hrec] at hl
        cases hl
        have hdr : chunks.drop (i + 10) = (chunks.drop i).drop 10 := by
          rw [List.drop_drop]
        have hrest := ih (i + 10) (by
          simp only [List.length_drop] at hlen ⊢
          omega) rest hrec
        have hlenb : ((chunks.drop i).take 10).length ≤ resp.data.length := by
          have := hp _ _ hprov
          simp only [List.length_map] at this
          omega
        rw [List.map_append, map_chunk_zip_map,
          List.map_fst_zip _ _ hlenb, hrest, hdr, List.take_append_drop]

/-- C2 (amended): when the provider answers every batch with one vector
per input, `generateEmbeddings` succeeds with exactly one embedding per
input chunk, in order, correlated by carrying the chunk itself in the
record; the source never produces a failed-chunk list, so the claimed
`embeddings + failed_chunk_refs = input` accounting holds only in the
all-success case (where the failed count is trivially zero) and not under
batch failure. -/
theorem embedder_success_accounting {V : Type}
    (provider : List String → Except String (ProviderResponse V))
    (chunks : List PChunk)
    (hp : ∀ b resp, provider b = .ok resp → resp.data.length = b.length) :
    ∀ l, generateEmbeddings provider chunks = .ok l →
      l.map (fun r => r.chunk) = chunks ∧
      numEmbeddings (generateEmbeddings provider chunks)
          + numFailedChunkRefs (generateEmbeddings provider chunks)
        = chunks.length := by
  intro l hl
  have h := generateEmbeddingsLoop_ok_spec provider hp chunks
    (numBatches chunks.length) 0
    (by
      simp only [List.drop_zero, numBatches]
      omega)
    l (by simpa [generateEmbeddings] using hl)
  simp only [List.drop_zero] at h
  refine ⟨h, ?_⟩
  have hlen : l.length = chunks.length := by
    rw [← h, List.length_map]
  simp [generateEmbeddings] at hl
  simp [numEmbeddings, numFailedChunkRefs, generateEmbeddings, hl, hlen]

instance instDecEqExcept {ε α : Type} [DecidableEq ε] [DecidableEq α] :
    DecidableEq (Except ε α) := fun x y =>
  match x, y with
  | .ok a, .ok b =>
    match decEq a b with
    | isTrue h => isTrue (by rw [h])
    | isFalse h => isFalse (by intro hc; cases hc; exact h rfl)
  | .ok _, .error _ => isFalse (by intro hc; cases hc)
  | .error _, .ok _ => isFalse (by intro hc; cases hc)
  | .error a, .error b =>
    match decEq a b with
    | isTrue h => isTrue (by rw [h])
    | isFalse h => isFalse (by intro hc; cases hc; exact h rfl)

/-- A provider that succeeds on every batch, returning one zero vector per
input text. -/
def provAllOk : List String → Except String (ProviderResponse ℚ) :=
  fun batch => .ok ⟨batch.map (fun _ => 0), 0⟩

/-- Witness for (amended) C2: a two-chunk document with an all-success
provider yields exactly one embedding per chunk, in order. -/
theorem embedder_success_accounting_witness :
    ∃ l, generateEmbeddings provAllOk [⟨"ta", "c-0"⟩, ⟨"tb", "c-1"⟩] = .ok l ∧
      l.map (fun r => r.chunk) = [⟨"ta", "c-0"⟩, ⟨"tb", "c-1"⟩] ∧
      numEmbeddings (generateEmbeddings provAllOk
          [⟨"ta", "c-0"⟩, ⟨"tb", "c-1"⟩])
        + numFailedChunkRefs (generateEmbeddings provAllOk
            [⟨"ta", "c-0"⟩, ⟨"tb", "c-1"⟩]) = 2 := by
  have hp : ∀ (b : List String) (resp : ProviderResponse ℚ),
      provAllOk b = .ok resp → resp.data.length = b.length := by
    intro b resp h
    cases h
    simp
  have hok : generateEmbeddings provAllOk [⟨"ta", "c-0"⟩, ⟨"tb", "c-1"⟩]
      = .ok [⟨⟨"ta", "c-0"⟩, 0, 0⟩, ⟨⟨"tb", "c-1"⟩, 0, 0⟩] := by
    norm_num [generateEmbeddings, generateEmbeddingsLoop, numBatches,
      provAllOk]
  have h := embedder_success_accounting provAllOk
    [⟨"ta", "c-0"⟩, ⟨"tb", "c-1"⟩] hp _ hok
  exact ⟨_, hok, h.1, h.2⟩

/-- The spec's EmbeddingBatcher scenario input: 25 chunks, processed in
batches of 10. -/
def chunks25 : List PChunk :=
  (List.range 25).map (fun i => ⟨"t" ++ toString i, "c-" ++ toString i⟩)

/-- A provider that fails permanently exactly on the second batch (the one
containing the chunk with text "t10") and succeeds on every other
batch. -/
def provFailBatch2 : List String → Except String (ProviderResponse ℚ) :=
  fun batch =>
    if "t10" ∈ batch then .error "rate limit"
    else .ok ⟨batch.map (fun _ => 0), 0⟩

/-- Counterexample to C2: with 25 chunks and the second batch failing
permanently, the call returns a bare error; no embeddings and no failed
chunk references exist, so `embeddings + failed_chunk_refs` is `0`, not
`25` — the claimed accounting fails whenever a batch fails. -/
theorem embedder_accounting_counterexample :
    generateEmbeddings provFailBatch2 chunks25 = .error "rate limit" ∧
    numEmbeddings (generateEmbeddings provFailBatch2 chunks25)
        + numFailedChunkRefs (generateEmbeddings provFailBatch2 chunks25)
      = 0 ∧
    chunks25.length = 25 ∧ (0 : Nat) ≠ 25 := by
  refine ⟨by decide, by decide, by decide, by decide⟩

/-- C6 (amended): one failed batch aborts the whole call — when the
provider succeeds on the first batch but fails permanently on the second,
`generateEmbeddings` returns that error (no embeddings of the surviving
batches, no failed-chunk list, remaining batches irrelevant). -/
theorem embedder_batch_failure_aborts {V : Type}
    (provider : List String → Except String (ProviderResponse V))
    (chunks : List PChunk) (e : String) (resp1 : ProviderResponse V)
    (h1 : provider ((chunks.take 10).map (fun c => c.text)) = .ok resp1)
    (h2 : provider (((chunks.drop 10).take 10).map (fun c => c.text))
      = .error e)
    (hlen : 10 < chunks.length) :
    generateEmbeddings provider chunks = .error e := by
  obtain ⟨k, hk⟩ : ∃ k, numBatches chunks.length = k + 2 :=
    ⟨numBatches chunks.length - 2, by unfold numBatches; omega⟩
  unfold generateEmbeddings
  rw [hk]
  show generateEmbeddingsLoop provider chunks (k + 1 + 1) 0 = .error e
  simp only [generateEmbeddingsLoop, List.drop_zero, h1]
  simp only [Nat.zero_add, h2]

/-- Witness for (amended) C6: the spec scenario concretely — 25 chunks,
second batch failing — ends in the batch error. -/
theorem embedder_batch_failure_aborts_witness :
    generateEmbeddings provFailBatch2 chunks25 = .error "rate limit" := by
  refine embedder_batch_failure_aborts provFailBatch2 chunks25 "rate limit"
    ⟨(chunks25.take 10).map (fun _ => (0 : ℚ)), 0⟩ ?_ ?_ ?_
  · decide
  · decide
  · decide

/-- Counterexample to C6: the claimed outcome for the 25-chunk scenario
(15 embeddings and 10 failed chunk refs) does not occur; the call returns
an error carrying neither. -/
theorem embedder_partial_counterexample :
    generateEmbeddings provFailBatch2 chunks25 = .error "rate limit" ∧
    ¬ (numEmbeddings (generateEmbeddings provFailBatch2 chunks25) = 15 ∧
       numFailedChunkRefs (generateEmbeddings provFailBatch2 chunks25) = 10)
    := by
  refine ⟨by decide, by decide⟩

/-! ### Ingestion status lifecycle (upload-pdf.js lines 224-243,
RagAIAssistantHero.tsx `processUserPDF` lines 197-272)

The upload handler inserts the document record with
`processing_status: 'pending'` and fires `processUserPDF` without awaiting
it.  `processUserPDF` writes `'processing'`, runs download → python
chunking → embeddings → storage, writes `'completed'` on success
(`updateDocumentCompletion`), and its `catch` writes `'failed'` with the
thrown message.  The external steps are outcome parameters; the embedding
step is the embedded `generateEmbeddings`. -/

/-- Values of the `processing_status` column. -/
inductive ProcStatus where
  | pending : ProcStatus
  | processing : ProcStatus
  | completed : ProcStatus
  | failed : String → ProcStatus
deriving DecidableEq

/-- Outcomes of the external steps of one ingestion run. -/
structure IngestionEnv (V : Type) where
  download : Except String Unit
  python : Except String (List PChunk)
  provider : List String → Except String (ProviderResponse V)
  storage : Except String Unit

/-- The sequence of `processing_status` writes issued by
`processUserPDF`: `'processing'` first, then exactly one terminal write —
`'failed'` with the thrown step message from the `catch` block, or
`'completed'` from `updateDocumentCompletion`. -/
def processUserPDFStatusWrites {V : Type} (env : IngestionEnv V) :
    List ProcStatus :=
  ProcStatus.processing ::
    (match env.download with
     | .error e => [.failed ("Failed to download PDF: " ++ e)]
     | .ok _ =>
       match env.python with
       | .error e => [.failed ("Python processing failed: " ++ e)]
       | .ok chunks =>
         match generateEmbeddings env.provider chunks with
         | .error e => [.failed ("Failed to generate embeddings: " ++ e)]
         | .ok _ =>
           match env.storage with
           | .error e => [.failed ("Failed to store chunks: " ++ e)]
           | .ok _ => [.completed])

/-- The full status history of a document record: the `'pending'` insert
of the upload handler followed by the writes of the fired-off
`processUserPDF` run. -/
def uploadAndProcess {V : Type} (env : IngestionEnv V) : List ProcStatus :=
  ProcStatus.pending :: processUserPDFStatusWrites env

/-- The allowed `processing_status` transitions:
pending → processing → completed | failed. -/
def allowedStep : ProcStatus → ProcStatus → Bool
  | .pending, .processing => true
  | .processing, .completed => true
  | .processing, .failed _ => true
  | _, _ => false

def isTerminal : ProcStatus → Bool
  | .completed => true
  | .failed _ => true
  | _ => false

/-- C9: every ingestion run's status history starts at `'pending'`, moves
to `'processing'`, follows only the allowed transitions, and ends in an
explicit terminal status — `'completed'` on success and `'failed'` with
an error message on any processing error; no run stops at an intermediate
status. -/
theorem ingestion_status_lifecycle {V : Type} (env : IngestionEnv V) :
    (uploadAndProcess env).head? = some ProcStatus.pending ∧
    (uploadAndProcess env).tail.head? = some ProcStatus.processing ∧
    (∃ last, (uploadAndProcess env).getLast? = some last
      ∧ isTerminal last = true) ∧
    ((uploadAndProcess env).getLast? = some ProcStatus.completed ∨
      ∃ e, (uploadAndProcess env).getLast? = some (ProcStatus.failed e)) ∧
    List.Chain' (fun a b => allowedStep a b = true) (uploadAndProcess env) := by
  have htr : ∃ X, uploadAndProcess env
      = [ProcStatus.pending, ProcStatus.processing, X]
      ∧ (X = ProcStatus.completed ∨ ∃ e, X = ProcStatus.failed e) := by
    unfold uploadAndProcess processUserPDFStatusWrites
    cases hdl : env.download with
    | error e => exact ⟨_, rfl, Or.inr ⟨_, rfl⟩⟩
    | ok u =>
      dsimp only
      cases hpy : env.python with
      | error e => exact ⟨_, rfl, Or.inr ⟨_, rfl⟩⟩
      | ok chunks =>
        dsimp only
        cases hemb : generateEmbeddings env.provider chunks with
        | error e => exact ⟨_, rfl, Or.inr ⟨_, rfl⟩⟩
        | ok l =>
          dsimp only
          cases hst : env.storage with
          | error e => exact ⟨_, rfl, Or.inr ⟨_, rfl⟩⟩
          | ok u2 => exact ⟨_, rfl, Or.inl rfl⟩
  obtain ⟨X, hX, hcase⟩ := htr
  rw [hX]
  refine ⟨rfl, rfl, ?_, ?_, ?_⟩
  · rcases hcase with h | ⟨e, h⟩ <;> subst h
    · exact ⟨_, rfl, rfl⟩
    · exact ⟨_, rfl, rfl⟩
  · rcases hcase with h | ⟨e, h⟩ <;> subst h
    · exact Or.inl rfl
    · exact Or.inr ⟨e, rfl⟩
  · rcases hcase with h | ⟨e, h⟩ <;> subst h <;>
      simp [List.chain'_cons, allowedStep]

end SciPaperRag
